import Mathlib

/-!
Verification of the function-body semantic analyzer
(`vyper/semantics/analysis/local.py`).

This file gives a shallow embedding of the analyzer's core routines:
the control-flow terminator analyzer (`find_terminating_node` and the
return check in `FunctionNodeVisitor.analyze`), the iterator safety
checker (`_check_iterator_modification` and the storage-iterator scan
in `visit_For`), the loop range validator (`_validate_range_call`),
the call-mutability check in `visit_Expr`, revert-reason validation
(`_validate_revert_reason`, `visit_Assert`), the module driver
(`validate_functions`), and the expression annotator (`ExprVisitor`).

The vyper AST (a collaborator of the analyzed module) is embedded as a
small inductive family covering the node kinds the analyzed routines
inspect: names, attribute accesses, subscripts, calls and literals for
expressions; expression statements, assignments, conditionals, loops,
return, raise and pass for statements.  Collaborator services that live
outside the analyzed module (the type algebra, constant folder and
namespace) enter as explicit parameters or fields, modelled from the
spec where noted.
-/

set_option autoImplicit false

/-- Expression nodes of the embedded vyper AST (collaborator `vy_ast`).
`attribute value attr` is an access `value.attr`; `call func args` is a
call; `name id` an identifier reference. -/
inductive VyExpr where
  | name (id : String)
  | attribute (value : VyExpr) (attr : String)
  | subscript (value : VyExpr) (index : VyExpr)
  | call (func : VyExpr) (args : List VyExpr)
  | intLit (value : Int)
  | strLit (value : String)

/-- Statement nodes of the embedded vyper AST.  `ifS test body orelse`
is a conditional with both branch bodies (an absent else-branch is the
empty list, as in the python AST); `forS target iter body` a for loop;
`ret` a return; `raiseS` a revert. -/
inductive VyStmt where
  | exprStmt (e : VyExpr)
  | assign (target : VyExpr) (value : VyExpr)
  | augAssign (target : VyExpr) (value : VyExpr)
  | ifS (test : VyExpr) (body : List VyStmt) (orelse : List VyStmt)
  | forS (target : String) (iter : VyExpr) (body : List VyStmt)
  | ret (value : Option VyExpr)
  | raiseS
  | passS

mutual

/-- Structural node comparison, `vy_ast.compare_nodes`: same node kind,
same field values, compared recursively (not object identity). -/
def VyExpr.beq : VyExpr → VyExpr → Bool
  | .name a, .name b => a == b
  | .attribute v1 a1, .attribute v2 a2 => VyExpr.beq v1 v2 && a1 == a2
  | .subscript v1 i1, .subscript v2 i2 => VyExpr.beq v1 v2 && VyExpr.beq i1 i2
  | .call f1 args1, .call f2 args2 => VyExpr.beq f1 f2 && VyExpr.beqList args1 args2
  | .intLit a, .intLit b => a == b
  | .strLit a, .strLit b => a == b
  | _, _ => false

/-- Pointwise `compare_nodes` on child lists. -/
def VyExpr.beqList : List VyExpr → List VyExpr → Bool
  | [], [] => true
  | a :: as, b :: bs => VyExpr.beq a b && VyExpr.beqList as bs
  | _, _ => false

end

/-- The `is_terminus` node flag: true for return/revert-like statements
(`Return`, `Raise`). -/
def VyStmt.isTerminus : VyStmt → Bool
  | .ret _ => true
  | .raiseS => true
  | _ => false

/-- Is the statement a `For` loop node. -/
def VyStmt.isForLoop : VyStmt → Bool
  | .forS _ _ _ => true
  | _ => false

/-- Error raised by `find_terminating_node`: the `StructureException`
with message "Unreachable code!" attached to the offending node. -/
inductive TermErr where
  | unreachableCode (node : VyStmt)

mutual

/-- One iteration of the loop body of `find_terminating_node`,
processing a single node.  `ret` is always `None` at this point (the
unreachable-code check raised otherwise), so the iteration computes the
new value of `ret` from the node alone: the node itself if its
`is_terminus` flag is set; for an `If` node both arms are recursed into
(surfacing unreachable code inside them) and if both terminate the else
terminus becomes the result; a `For` body is recursed into only for its
unreachable-code side effect. -/
def findTerminatingStep (node : VyStmt) : Except TermErr (Option VyStmt) :=
  let r1 := if node.isTerminus then some node else none
  match node with
  | .ifS _test body orelse =>
    match findTerminatingNodeAux none body with
    | .error e => .error e
    | .ok bodyTerminates =>
      match findTerminatingNodeAux none orelse with
      | .error e => .error e
      | .ok elseTerminates =>
        .ok (if bodyTerminates.isSome && elseTerminates.isSome then elseTerminates else r1)
  | .forS _t _i body =>
    match findTerminatingNodeAux none body with
    | .error e => .error e
    | .ok _ => .ok r1
  | _ => .ok r1

/-- The scanning loop of `find_terminating_node`: `r` is the `ret`
accumulator; a node reached while `ret` is already set is unreachable
code and a hard error. -/
def findTerminatingNodeAux (r : Option VyStmt) : List VyStmt → Except TermErr (Option VyStmt)
  | [] => .ok r
  | node :: rest =>
    if r.isSome then .error (.unreachableCode node)
    else
      match findTerminatingStep node with
      | .error e => .error e
      | .ok r2 => findTerminatingNodeAux r2 rest

end

/-- `find_terminating_node`: finds the terminus node for a list of
nodes, raising if any node is unreachable. -/
def find_terminating_node (nodeList : List VyStmt) : Except TermErr (Option VyStmt) :=
  findTerminatingNodeAux none nodeList

/-- Errors surfaced by the termination phase of
`FunctionNodeVisitor.analyze`. -/
inductive AnalyzeErr where
  | unreachableCode (node : VyStmt)
  | missingReturn (fnName : String)

/-- The termination check at the end of `FunctionNodeVisitor.analyze`
(local.py lines 210-217): with a declared return type the body must
have a terminus, otherwise a `FunctionDeclarationException` "Missing
return statement in function ..." is raised; without a return type
`find_terminating_node` still runs for its unreachable-code detection
side effect. -/
def analyze_return_check (fnName : String) (hasReturnType : Bool) (body : List VyStmt) :
    Except AnalyzeErr Unit :=
  if hasReturnType then
    match find_terminating_node body with
    | .error (.unreachableCode n) => .error (.unreachableCode n)
    | .ok none => .error (.missingReturn fnName)
    | .ok (some _) => .ok ()
  else
    match find_terminating_node body with
    | .error (.unreachableCode n) => .error (.unreachableCode n)
    | .ok _ => .ok ()

/-- Literal-or-not view of a range argument after constant folding:
`vy_ast.Num` literals carry their value, anything else is `other`. -/
inductive RNode where
  | num (value : Int)
  | other
deriving DecidableEq, Repr

/-- Is the node a `vy_ast.Num` literal. -/
def RNode.isNum : RNode → Bool
  | .num _ => true
  | .other => false

/-- A range-call argument node together with its optional precomputed
folded value (the constant-folding collaborator's
`has_folded_value` / `get_folded_value` slot). -/
structure RArg where
  node : RNode
  foldedValue : Option RNode
deriving DecidableEq, Repr

/-- The expression `i.get_folded_value() if i.has_folded_value else i`
applied to a range argument. -/
def RArg.resolve (a : RArg) : RNode := a.foldedValue.getD a.node

/-- Errors raised by `_validate_range_call`. -/
inductive RangeErr where
  | boundNotLiteral
  | boundNotPositive
  | redundantBound
  | nonLiteralArg
  | endNotGreater
deriving DecidableEq, Repr

/-- The `start` node of `_validate_range_call`: the implicit literal
`0` when a single positional argument is given, else the first
argument (after folding). -/
def rangeStart (a1 : RArg) (a2 : Option RArg) : RNode :=
  match a2 with
  | none => RNode.num 0
  | some _ => a1.resolve

/-- The `end` node of `_validate_range_call`: the sole argument when
one is given, else the second argument (after folding). -/
def rangeEnd (a1 : RArg) (a2 : Option RArg) : RNode :=
  match a2 with
  | none => a1.resolve
  | some b => b.resolve

/-- `_validate_range_call` (local.py lines 719-748), for a call with
one (`a1`) or two (`a1`, `a2`) positional arguments and an optional
`bound=` keyword.  With a bound: the bound must be a folded literal
(`StateAccessViolation` otherwise), at least 1 (`StructureException`),
and start/end must not both be literal (`StructureException`, the
bound would be redundant).  Without a bound: start and end must both
be literals (`StateAccessViolation`) with end strictly greater than
start (`StructureException`). -/
def _validate_range_call (a1 : RArg) (a2 : Option RArg) (bound : Option RArg) :
    Except RangeErr Unit :=
  let startNode := rangeStart a1 a2
  let endNode := rangeEnd a1 a2
  match bound with
  | some bArg =>
    match bArg.resolve with
    | .other => .error .boundNotLiteral
    | .num bv =>
      if bv ≤ 0 then .error .boundNotPositive
      else
        match startNode, endNode with
        | .num _, .num _ => .error .redundantBound
        | _, _ => .ok ()
  | none =>
    match startNode with
    | .other => .error .nonLiteralArg
    | .num sv =>
      match endNode with
      | .other => .error .nonLiteralArg
      | .num ev => if ev ≤ sv then .error .endNotGreater else .ok ()

/-- `StateMutability`: totally ordered mutability levels
`PURE < VIEW < NONPAYABLE < PAYABLE`. -/
inductive StateMutability where
  | pure
  | view
  | nonpayable
  | payable
deriving DecidableEq, Repr

/-- Numeric rank realizing the mutability order. -/
def StateMutability.toNat : StateMutability → Nat
  | .pure => 0
  | .view => 1
  | .nonpayable => 2
  | .payable => 3

instance : LT StateMutability := ⟨fun a b => a.toNat < b.toNat⟩

instance : LE StateMutability := ⟨fun a b => a.toNat ≤ b.toNat⟩

instance (a b : StateMutability) : Decidable (a < b) :=
  inferInstanceAs (Decidable (a.toNat < b.toNat))

instance (a b : StateMutability) : Decidable (a ≤ b) :=
  inferInstanceAs (Decidable (a.toNat ≤ b.toNat))

/-- The two `StateAccessViolation` errors of the mutability fragment of
`visit_Expr`. -/
inductive MutErr where
  | cannotCallMutating
  | cannotCallNonPure
deriving DecidableEq, Repr

/-- The `ContractFunctionT` mutability checks of
`FunctionNodeVisitor.visit_Expr` (local.py lines 320-336): a callee
whose mutability exceeds `VIEW` may not be called from a function at
`VIEW` or below, and a `PURE` function may only call `PURE` callees;
both failures are `StateAccessViolation`s. -/
def visit_Expr_call_mutability (funcMut calleeMut : StateMutability) : Except MutErr Unit :=
  if calleeMut > StateMutability.view ∧ funcMut ≤ StateMutability.view then
    .error .cannotCallMutating
  else if funcMut = StateMutability.pure ∧ calleeMut ≠ StateMutability.pure then
    .error .cannotCallNonPure
  else .ok ()

/-- The revert-reason argument of a `raise`/`assert`: a string literal,
a bare identifier, or some other expression.  Modelled from the spec:
the type algebra collaborator `validate_expected_type(msg, String[1024])`
is not part of the analyzed module, so its verdict is recorded on the
node as the `fitsString1024` field. -/
inductive RevertMsg where
  | strLit (value : String)
  | name (id : String) (fitsString1024 : Bool)
  | expr (fitsString1024 : Bool)

/-- Errors raised by `_validate_revert_reason`: the
`StructureException` "Reason string cannot be empty" and the
`InvalidType` "revert reason must fit within String[1024]" rewrapped
from the collaborator's `TypeMismatch`. -/
inductive RevertErr where
  | emptyReasonString
  | reasonNotString1024
deriving DecidableEq, Repr

/-- `FunctionNodeVisitor._validate_revert_reason` (local.py lines
245-256): a string literal must not strip to the empty string (the
python test `not msg_node.value.strip()` holds exactly when every
character is whitespace); the
bare identifier `UNREACHABLE` is accepted without type-checking; any
other reason must validate against `String[1024]`. -/
def _validate_revert_reason : RevertMsg → Except RevertErr Unit
  | .strLit value =>
    if value.data.all Char.isWhitespace then .error .emptyReasonString else .ok ()
  | .name id fitsString1024 =>
    if id = "UNREACHABLE" then .ok ()
    else if fitsString1024 then .ok () else .error .reasonNotString1024
  | .expr fitsString1024 =>
    if fitsString1024 then .ok () else .error .reasonNotString1024

/-- Outcome of the type algebra collaborator call
`validate_expected_type(node.test, BoolT())`, modelled from the spec:
it either succeeds or fails with an `InvalidType` or a `TypeMismatch`
condition. -/
inductive TcErr where
  | invalidType
  | typeMismatch
deriving DecidableEq, Repr

/-- Errors raised by `visit_Assert`. -/
inductive AssertErr where
  | reasonErr (e : RevertErr)
  | assertionTestNotBoolean
  | testTypeMismatch
deriving DecidableEq, Repr

/-- The `try/except` around the boolean check of the assert test: an
`InvalidType` from the collaborator is re-raised as `InvalidType`
"Assertion test value must be a boolean"; a `TypeMismatch` propagates
unchanged. -/
def assertTestCheck : Except TcErr Unit → Except AssertErr Unit
  | .error .invalidType => .error .assertionTestNotBoolean
  | .error .typeMismatch => .error .testTypeMismatch
  | .ok _ => .ok ()

/-- `FunctionNodeVisitor.visit_Assert` (local.py lines 258-266): the
optional message is validated exactly as a revert reason, then the
test expression must validate against `BoolT`. -/
def visit_Assert (msg : Option RevertMsg) (testCheck : Except TcErr Unit) :
    Except AssertErr Unit :=
  match msg with
  | some m =>
    match _validate_revert_reason m with
    | .error e => .error (.reasonErr e)
    | .ok _ => assertTestCheck testCheck
  | none => assertTestCheck testCheck

/-- The error slot of a per-function analysis outcome: `some e` when
the function's analysis raised `e`. -/
def exceptErr {E : Type} : Except E Unit → Option E
  | .error e => some e
  | .ok _ => none

/-- `validate_functions` (local.py lines 53-66): analyzes every
function of the module, catching each function's `VyperException` into
an `ExceptionList`, then `raise_if_not_empty` raises the collected
errors as one aggregate error.  `analyze fn` is the outcome of
`FunctionNodeVisitor(...).analyze()` for function `fn`. -/
def validate_functions {α E : Type} (analyze : α → Except E Unit) (fns : List α) :
    Except (List E) Unit :=
  let errList := fns.foldl
    (fun acc fn =>
      match analyze fn with
      | .error e => acc ++ [e]
      | .ok _ => acc)
    []
  match errList with
  | [] => .ok ()
  | es => .error es

/-- The mutating container-method names checked by
`_check_iterator_modification`. -/
def mutatingMemberFns : List String := ["append", "pop", "extend"]

/-- Is the nearest enclosing `Attribute` ancestor's attribute one of
the mutating container methods. -/
def isMutatingAttr : Option String → Bool
  | some a => mutatingMemberFns.contains a
  | none => false

/-- The per-node test of `_check_iterator_modification`: the node is
structurally equal to the iterated expression and either lies inside
the target of its nearest enclosing `Assign`/`AugAssign` statement, or
its nearest enclosing `Attribute` ancestor accesses `append`, `pop` or
`extend`.  (An `Attribute` node's only child is its `value`, so a node
with an `Attribute` ancestor always lies inside that ancestor's
`value` subtree.) -/
def modFlag (target node : VyExpr) (inAssignTarget : Bool) (nearestAttr : Option String) : Bool :=
  VyExpr.beq node target && (inAssignTarget || isMutatingAttr nearestAttr)

mutual

/-- Scan of an expression subtree for a node flagged by
`_check_iterator_modification`.  `inAssignTarget` records whether the
subtree lies inside the target of the nearest enclosing assignment;
`nearestAttr` is the attribute name of the nearest enclosing
`Attribute` ancestor, updated when descending into an `Attribute`
node's `value` child. -/
def exprHasMod (target : VyExpr) (inAssignTarget : Bool) (nearestAttr : Option String) :
    VyExpr → Bool
  | .name id => modFlag target (.name id) inAssignTarget nearestAttr
  | .attribute v a =>
    modFlag target (.attribute v a) inAssignTarget nearestAttr ||
    exprHasMod target inAssignTarget (some a) v
  | .subscript v i =>
    modFlag target (.subscript v i) inAssignTarget nearestAttr ||
    exprHasMod target inAssignTarget nearestAttr v ||
    exprHasMod target inAssignTarget nearestAttr i
  | .call f args =>
    modFlag target (.call f args) inAssignTarget nearestAttr ||
    exprHasMod target inAssignTarget nearestAttr f ||
    exprListHasMod target inAssignTarget nearestAttr args
  | .intLit v => modFlag target (.intLit v) inAssignTarget nearestAttr
  | .strLit v => modFlag target (.strLit v) inAssignTarget nearestAttr

/-- `exprHasMod` over a child list. -/
def exprListHasMod (target : VyExpr) (inAssignTarget : Bool) (nearestAttr : Option String) :
    List VyExpr → Bool
  | [] => false
  | e :: rest =>
    exprHasMod target inAssignTarget nearestAttr e ||
    exprListHasMod target inAssignTarget nearestAttr rest

end

mutual

/-- Statement-level scan of `_check_iterator_modification`: descends
into every statement, starting expression scans with the context the
expression occupies (inside an assignment target or not; no
`Attribute` ancestor at statement level). -/
def stmtHasMod (target : VyExpr) : VyStmt → Bool
  | .exprStmt e => exprHasMod target false none e
  | .assign t v => exprHasMod target true none t || exprHasMod target false none v
  | .augAssign t v => exprHasMod target true none t || exprHasMod target false none v
  | .ifS test body orelse =>
    exprHasMod target false none test ||
    stmtListHasMod target body || stmtListHasMod target orelse
  | .forS _tgt iter body =>
    exprHasMod target false none iter || stmtListHasMod target body
  | .ret (some e) => exprHasMod target false none e
  | .ret none => false
  | .raiseS => false
  | .passS => false

/-- `stmtHasMod` over a statement list. -/
def stmtListHasMod (target : VyExpr) : List VyStmt → Bool
  | [] => false
  | s :: rest => stmtHasMod target s || stmtListHasMod target rest

end

/-- `_check_iterator_modification(target_node, search_node)` (local.py
lines 98-125) with a statement as search root, reduced to its
success/failure verdict: is some descendant of `search` structurally
equal to `target` and either the target of an assignment or the
receiver of an `append`/`pop`/`extend` access. -/
def _check_iterator_modification (target : VyExpr) (search : VyStmt) : Bool :=
  stmtHasMod target search

mutual

/-- Collection of `node.get_descendants(vy_ast.Call,
\x7b"func.value.id": "self"\x7d)` over an expression subtree: the attribute
names of calls of the form `self.<fn>(...)`, in traversal order. -/
def exprSelfCalls : VyExpr → List String
  | .name _ => []
  | .attribute v _ => exprSelfCalls v
  | .subscript v i => exprSelfCalls v ++ exprSelfCalls i
  | .call (.attribute (.name fid) a) args =>
    (if fid == "self" then [a] else []) ++ exprListSelfCalls args
  | .call f args => exprSelfCalls f ++ exprListSelfCalls args
  | .intLit _ => []
  | .strLit _ => []

/-- `exprSelfCalls` over a child list. -/
def exprListSelfCalls : List VyExpr → List String
  | [] => []
  | e :: rest => exprSelfCalls e ++ exprListSelfCalls rest

end

mutual

/-- Collection of `self.<fn>(...)` call names over a statement
subtree. -/
def stmtSelfCalls : VyStmt → List String
  | .exprStmt e => exprSelfCalls e
  | .assign t v => exprSelfCalls t ++ exprSelfCalls v
  | .augAssign t v => exprSelfCalls t ++ exprSelfCalls v
  | .ifS test body orelse =>
    exprSelfCalls test ++ stmtListSelfCalls body ++ stmtListSelfCalls orelse
  | .forS _tgt iter body => exprSelfCalls iter ++ stmtListSelfCalls body
  | .ret (some e) => exprSelfCalls e
  | .ret none => []
  | .raiseS => []
  | .passS => []

/-- `stmtSelfCalls` over a statement list. -/
def stmtListSelfCalls : List VyStmt → List String
  | [] => []
  | s :: rest => stmtSelfCalls s ++ stmtListSelfCalls rest

end

mutual

/-- Does the expression subtree (root included) contain a `Name` node
with id `self` — the `get_descendants(vy_ast.Name, \x7b"id": "self"\x7d)`
test of `visit_For` applied below an `Attribute` root. -/
def exprSubtreeHasSelf : VyExpr → Bool
  | .name id => id == "self"
  | .attribute v _ => exprSubtreeHasSelf v
  | .subscript v i => exprSubtreeHasSelf v || exprSubtreeHasSelf i
  | .call f args => exprSubtreeHasSelf f || exprListSubtreeHasSelf args
  | .intLit _ => false
  | .strLit _ => false

/-- `exprSubtreeHasSelf` over a child list. -/
def exprListSubtreeHasSelf : List VyExpr → Bool
  | [] => false
  | e :: rest => exprSubtreeHasSelf e || exprListSubtreeHasSelf rest

end

/-- `iter_is_storage_var` of `visit_For`: the iterated expression is an
`Attribute` whose descendants contain a `Name` node `self`. -/
def iterIsStorageVar : VyExpr → Bool
  | .attribute v _ => exprSubtreeHasSelf v
  | _ => false

/-- A module-level function as the iterator scan consumes it: its
`FunctionDef` body and the names of its precomputed
`reachable_internal_functions` (the Function Descriptor field supplied
by the declaration pass). -/
structure ModuleFn where
  name : String
  body : List VyStmt
  reachable : List String

/-- `self.vyper_module.get_children(vy_ast.FunctionDef, \x7b"name":
fn_name\x7d)[0]`: the first function definition with the given name. -/
def lookupFn (vyModule : List ModuleFn) (fnName : String) : Option ModuleFn :=
  vyModule.find? (fun f => f.name == fnName)

/-- Errors raised by the iterator-safety portion of `visit_For`: three
`ImmutableViolation` shapes, plus `missingFn` modelling the
uncaught `IndexError` when a called function has no definition. -/
inductive ForErr where
  | modifiedDuringIteration (iterName : String)
  | callModifies (fnName iterName : String)
  | callIndirectlyModifies (fnName deeperName iterName : String)
  | missingFn (fnName : String)
deriving DecidableEq, Repr

/-- Is the error one of the `ImmutableViolation` shapes. -/
def ForErr.isImmutableViolation : ForErr → Bool
  | .missingFn _ => false
  | _ => true

/-- `_check_iterator_modification(node.iter, fn_node)` with a function
definition as search root. -/
def fnHasMod (target : VyExpr) (fn : ModuleFn) : Bool :=
  stmtListHasMod target fn.body

/-- The `reachable_internal_functions` scan inside the call loop of
`visit_For`: each function reachable from the callee is checked for a
modification of the iterated expression (indirect hazard, naming both
the immediate callee and the deeper function). -/
def checkReachable (vyModule : List ModuleFn) (target : VyExpr) (fnName iterName : String) :
    List String → Except ForErr Unit
  | [] => .ok ()
  | g :: rest =>
    match lookupFn vyModule g with
    | none => .error (.missingFn g)
    | some gf =>
      if fnHasMod target gf then .error (.callIndirectlyModifies fnName g iterName)
      else checkReachable vyModule target fnName iterName rest

/-- The loop over `node.get_descendants(vy_ast.Call, \x7b"func.value.id":
"self"\x7d)` in `visit_For`: for each `self.<fn>(...)` call inside the
loop, the callee's body is checked for a direct modification of the
iterated expression, then every function in the callee's
`reachable_internal_functions` closure is checked for an indirect
one. -/
def checkLoopCalls (vyModule : List ModuleFn) (target : VyExpr) (iterName : String) :
    List String → Except ForErr Unit
  | [] => .ok ()
  | fnName :: rest =>
    match lookupFn vyModule fnName with
    | none => .error (.missingFn fnName)
    | some f =>
      if fnHasMod target f then .error (.callModifies fnName iterName)
      else
        match checkReachable vyModule target fnName iterName f.reachable with
        | .error e => .error e
        | .ok _ => checkLoopCalls vyModule target iterName rest

/-- Is the iterated expression a `Name` or `Attribute` node. -/
def VyExpr.isNameOrAttribute : VyExpr → Bool
  | .name _ => true
  | .attribute _ _ => true
  | _ => false

/-- The `iter_name = node.iter.attr` binding of `visit_For` (only
reached when the iterated expression is an `Attribute`). -/
def VyExpr.attrName : VyExpr → String
  | .attribute _ a => a
  | _ => ""

/-- The iterator-safety portion of `FunctionNodeVisitor.visit_For`
(local.py lines 380-420): a `Name`/`Attribute` iterated expression is
first checked for modification anywhere inside the `For` node itself;
then, if it is rooted at storage (`Attribute` containing `self`),
every `self.<fn>(...)` call inside the loop is checked for direct and
call-graph-transitive modification of the iterated expression. -/
def visit_For_iterator_safety (vyModule : List ModuleFn) (tgt : String) (iter : VyExpr)
    (body : List VyStmt) : Except ForErr Unit :=
  let forNode := VyStmt.forS tgt iter body
  if iter.isNameOrAttribute && _check_iterator_modification iter forNode then
    .error (.modifiedDuringIteration iter.attrName)
  else if iterIsStorageVar iter then
    checkLoopCalls vyModule iter iter.attrName (stmtSelfCalls forNode)
  else .ok ()

/-- Resolved types as the annotator consumes them (collaborator type
algebra values). -/
inductive Ty where
  | boolT
  | intT
  | strT (maxLen : Nat)
  | contractFn (fnName : String)
deriving DecidableEq, Repr

/-- Expression nodes as the annotator (`ExprVisitor`) sees them:
literal constants, name references, binary operations (with the
bit-shift special case for the right operand, and an optional folded
constant form supplied by the folding collaborator), and calls of a
contract function with one argument. -/
inductive AExpr where
  | constant (value : Int)
  | nameE (id : String)
  | binop (isShift : Bool) (l r : AExpr) (folded : Option AExpr)
  | callFn (fn : String) (arg : AExpr)

/-- The type algebra collaborator as the annotator consumes it.
Modelled from the spec: exact/possible-type resolution and
expected-type validation are pure, deterministic queries of the node
(they do not read the annotation slots), and each contract function's
signature is fixed by the declaration pass.  `possibleT e` is the
popped result of `get_possible_types_from_node(e)`; `valid e t` the
verdict of `validate_expected_type(e, t)`; `fnTy f` the exact type of
the callee name `f`; `argTy f` the callee's argument type;
`isInternal f` the callee's `is_internal` flag. -/
structure TypeOracle where
  possibleT : AExpr → Ty
  valid : AExpr → Ty → Bool
  fnTy : String → Ty
  argTy : String → Ty
  isInternal : String → Bool

/-- The mutable analysis state the annotator threads: each node's
annotation slot (`node._metadata["type"]`, keyed by the node's tree
path) and the enclosing function's append-only `called_functions`
set. -/
structure AnnState where
  ann : List Nat → Option Ty
  called : List String

/-- Stamp one node's annotation slot: `node._metadata["type"] = typ`. -/
def stampAnn (s : AnnState) (p : List Nat) (t : Ty) : AnnState :=
  ⟨fun q => if q = p then some t else s.ann q, s.called⟩

/-- `self.func.called_functions.add(call_type)`: set insertion. -/
def addCalled (s : AnnState) (fn : String) : AnnState :=
  ⟨s.ann, s.called.insert fn⟩

/-- Type-mismatch raised by `validate_expected_type` at the given
node path. -/
inductive AnnErr where
  | typeMismatch (path : List Nat)
deriving DecidableEq, Repr

mutual

/-- `ExprVisitor.visit` (local.py lines 505-522) with the per-kind
handlers it dispatches to (`visit_Constant`, `visit_Name`,
`visit_BinOp`, `visit_Call` in its `ContractFunctionT` branch):
recurses into children with refined expected types, stamps the node's
resolved-type annotation after the dispatch, records internal callees
into `called_functions`, and annotates the folded form (carried here
by `binop` nodes) at the same expected type after the node itself.
`p` is the node's tree path, addressing its annotation slot. -/
def ExprVisitor_visit (o : TypeOracle) : AExpr → Ty → List Nat → AnnState →
    Except AnnErr AnnState
  | .constant v, typ, p, s =>
    if o.valid (.constant v) typ then .ok (stampAnn s p typ) else .error (.typeMismatch p)
  | .nameE id, typ, p, s =>
    if o.valid (.nameE id) typ then .ok (stampAnn s p typ) else .error (.typeMismatch p)
  | .binop isShift l r folded, typ, p, s =>
    if o.valid l typ then
      match ExprVisitor_visit o l typ (p ++ [0]) s with
      | .error e => .error e
      | .ok s1 =>
        let rtyp := if isShift then o.possibleT r else typ
        if o.valid r rtyp then
          match ExprVisitor_visit o r rtyp (p ++ [1]) s1 with
          | .error e => .error e
          | .ok s2 => visitFoldedOpt o folded typ (p ++ [2]) (stampAnn s2 p typ)
        else .error (.typeMismatch (p ++ [1]))
    else .error (.typeMismatch (p ++ [0]))
  | .callFn fn arg, typ, p, s =>
    let callT := o.fnTy fn
    if o.valid (.nameE fn) callT then
      let s1 := stampAnn s (p ++ [0]) callT
      let s2 := if o.isInternal fn then addCalled s1 fn else s1
      match ExprVisitor_visit o arg (o.argTy fn) (p ++ [1]) s2 with
      | .error e => .error e
      | .ok s3 => .ok (stampAnn s3 p typ)
    else .error (.typeMismatch (p ++ [0]))

/-- The `if node.has_folded_value: self.visit(node.get_folded_value(), typ)`
tail of `ExprVisitor.visit`: annotate the folded form when present. -/
def visitFoldedOpt (o : TypeOracle) : Option AExpr → Ty → List Nat → AnnState →
    Except AnnErr AnnState
  | none, _typ, _p, s => .ok s
  | some f, typ, p, s => ExprVisitor_visit o f typ p s

end

mutual

/-- The sequence of annotation stamps `(path, type)` a successful
`ExprVisitor.visit` performs, in order — a pure function of the tree,
the expected type and the oracles alone. -/
def visitStamps (o : TypeOracle) : AExpr → Ty → List Nat → List (List Nat × Ty)
  | .constant _, typ, p => [(p, typ)]
  | .nameE _, typ, p => [(p, typ)]
  | .binop isShift l r folded, typ, p =>
    visitStamps o l typ (p ++ [0]) ++
    visitStamps o r (if isShift then o.possibleT r else typ) (p ++ [1]) ++
    [(p, typ)] ++
    stampsFoldedOpt o folded typ (p ++ [2])
  | .callFn fn arg, typ, p =>
    [(p ++ [0], o.fnTy fn)] ++
    visitStamps o arg (o.argTy fn) (p ++ [1]) ++
    [(p, typ)]

/-- The stamps of the optional folded form. -/
def stampsFoldedOpt (o : TypeOracle) : Option AExpr → Ty → List Nat →
    List (List Nat × Ty)
  | none, _typ, _p => []
  | some f, typ, p => visitStamps o f typ p

end

mutual

/-- The sequence of internal callees a successful `ExprVisitor.visit`
records into `called_functions`, in order. -/
def visitCalls (o : TypeOracle) : AExpr → List String
  | .constant _ => []
  | .nameE _ => []
  | .binop _ l r folded =>
    visitCalls o l ++ visitCalls o r ++ callsFoldedOpt o folded
  | .callFn fn arg =>
    (if o.isInternal fn then [fn] else []) ++ visitCalls o arg

/-- The recorded callees of the optional folded form. -/
def callsFoldedOpt (o : TypeOracle) : Option AExpr → List String
  | none => []
  | some f => visitCalls o f

end

/-- Apply a stamp sequence to an annotation map, in order. -/
def applyStamps : List (List Nat × Ty) → (List Nat → Option Ty) → List Nat → Option Ty
  | [], m => m
  | (p, t) :: rest, m => applyStamps rest (fun q => if q = p then some t else m q)

/-- The last stamp a sequence writes at a given path, if any. -/
def lastStampAt : List (List Nat × Ty) → List Nat → Option Ty
  | [], _ => none
  | (p, t) :: rest, q =>
    match lastStampAt rest q with
    | some u => some u
    | none => if q = p then some t else none

/-- Insert every element of a list into a set-like list, in order. -/
def insertAll (l : List String) (xs : List String) : List String :=
  xs.foldl (fun acc x => acc.insert x) l

deriving instance DecidableEq for Except

theorem except_bind_ok {E A B : Type} (a : A) (f : A → Except E B) :
    (Except.ok a : Except E A).bind f = f a := rfl

theorem except_bind_error {E A B : Type} (err : E) (f : A → Except E B) :
    (Except.error err : Except E A).bind f = .error err := rfl

/-- A single-statement scan is exactly the per-node step. -/
theorem find_terminating_node_singleton (s : VyStmt) :
    find_terminating_node [s] = findTerminatingStep s := by
  rw [find_terminating_node, findTerminatingNodeAux]
  simp only [Option.isSome_none, Bool.false_eq_true, if_false]
  cases hs : findTerminatingStep s with
  | error e => rfl
  | ok r2 => simp only [findTerminatingNodeAux]

/-- The scanning loop splits over list concatenation. -/
theorem findTerminatingNodeAux_append (l1 l2 : List VyStmt) :
    ∀ r, findTerminatingNodeAux r (l1 ++ l2) =
      (findTerminatingNodeAux r l1).bind fun r2 => findTerminatingNodeAux r2 l2 := by
  induction l1 with
  | nil =>
    intro r
    simp only [List.nil_append, findTerminatingNodeAux, except_bind_ok]
  | cons node rest ih =>
    intro r
    cases r with
    | some x =>
      have hl : findTerminatingNodeAux (some x) (node :: (rest ++ l2)) =
          .error (.unreachableCode node) := by
        simp only [findTerminatingNodeAux]
        simp
      have hr : findTerminatingNodeAux (some x) (node :: rest) =
          .error (.unreachableCode node) := by
        simp only [findTerminatingNodeAux]
        simp
      rw [List.cons_append, hl, hr, except_bind_error]
    | none =>
      simp only [List.cons_append, findTerminatingNodeAux, Option.isSome_none,
        Bool.false_eq_true, if_false]
      cases hs : findTerminatingStep node with
      | error e => rw [except_bind_error]
      | ok r2 => exact ih r2

/-- C1: for a function with a declared return type, the
`analyze` termination phase succeeds exactly when
`find_terminating_node` proves a terminus for the body; a body that is
an `if` with both arms terminating is accepted, and the same `if` with
an arm lacking a terminus fails with the missing-return
`FunctionDeclarationException`. -/
theorem analyze_requires_terminating_body (fnName : String) (test test2 : VyExpr)
    (b e eMissing body : List VyStmt) (tb te : VyStmt)
    (hb : find_terminating_node b = .ok (some tb))
    (he : find_terminating_node e = .ok (some te))
    (hm : find_terminating_node eMissing = .ok none) :
    (analyze_return_check fnName true body = .ok () ↔
      ∃ t, find_terminating_node body = .ok (some t)) ∧
    analyze_return_check fnName true [.ifS test b e] = .ok () ∧
    analyze_return_check fnName true [.ifS test2 b eMissing] =
      .error (.missingReturn fnName) := by
  have hb2 : findTerminatingNodeAux none b = .ok (some tb) := hb
  have he2 : findTerminatingNodeAux none e = .ok (some te) := he
  have hm2 : findTerminatingNodeAux none eMissing = .ok none := hm
  refine ⟨?_, ?_, ?_⟩
  · simp only [analyze_return_check, if_true]
    cases h : find_terminating_node body with
    | error err =>
      cases err with
      | unreachableCode n => simp
    | ok ot =>
      cases ot with
      | none => simp
      | some t => simp
  · have hfind : find_terminating_node [VyStmt.ifS test b e] = .ok (some te) := by
      rw [find_terminating_node_singleton, findTerminatingStep]
      simp only [hb2, he2]
      simp
    simp [analyze_return_check, hfind]
  · have hfind : find_terminating_node [VyStmt.ifS test2 b eMissing] = .ok none := by
      rw [find_terminating_node_singleton, findTerminatingStep]
      simp only [hb2, hm2]
      simp [VyStmt.isTerminus]
    simp [analyze_return_check, hfind]

/-- Witness for C1 at a concrete function body. -/
theorem analyze_requires_terminating_body_witness :
    (analyze_return_check "f" true [.ret none] = .ok () ↔
      ∃ t, find_terminating_node [.ret none] = .ok (some t)) ∧
    analyze_return_check "f" true [.ifS (.name "c") [.ret none] [.raiseS]] = .ok () ∧
    analyze_return_check "f" true [.ifS (.name "c") [.ret none] [.passS]] =
      .error (.missingReturn "f") :=
  analyze_requires_terminating_body "f" (.name "c") (.name "c") [.ret none] [.raiseS]
    [.passS] [.ret none] (.ret none) .raiseS rfl rfl rfl

/-- C2: a statement after a proven terminus (a terminus-flagged node,
or an `if` whose two arms both terminate) makes `find_terminating_node`
raise the unreachable-code structural error at the first dead
statement; the same sequence with the dead code removed succeeds with
that terminus. -/
theorem unreachable_after_terminus (pre : List VyStmt) (s d : VyStmt) (rest : List VyStmt)
    (t : VyStmt)
    (hpre : find_terminating_node pre = .ok none)
    (hs : find_terminating_node [s] = .ok (some t)) :
    find_terminating_node (pre ++ s :: d :: rest) = .error (.unreachableCode d) ∧
    find_terminating_node (pre ++ [s]) = .ok (some t) := by
  have hpre2 : findTerminatingNodeAux none pre = .ok none := hpre
  have hstep : findTerminatingStep s = .ok (some t) := by
    rw [← find_terminating_node_singleton]
    exact hs
  constructor
  · show findTerminatingNodeAux none (pre ++ s :: d :: rest) = _
    rw [findTerminatingNodeAux_append, hpre2, except_bind_ok]
    rw [findTerminatingNodeAux]
    simp only [Option.isSome_none, Bool.false_eq_true, if_false, hstep]
    rw [findTerminatingNodeAux]
    simp
  · show findTerminatingNodeAux none (pre ++ [s]) = _
    rw [findTerminatingNodeAux_append, hpre2, except_bind_ok]
    exact hs

/-- Witness for C2: dead code after an `if` whose two arms both
terminate; truncating at the `if` succeeds. -/
theorem unreachable_after_terminus_witness :
    find_terminating_node
        [.passS, .ifS (.name "c") [.ret none] [.raiseS], .passS] =
      .error (.unreachableCode .passS) ∧
    find_terminating_node [.passS, .ifS (.name "c") [.ret none] [.raiseS]] =
      .ok (some .raiseS) :=
  unreachable_after_terminus [.passS] (.ifS (.name "c") [.ret none] [.raiseS]) .passS []
    .raiseS rfl rfl

mutual

/-- A node returned as terminus by the per-node step carries the
`is_terminus` flag. -/
theorem findTerminatingStep_terminus_flag (node : VyStmt) (t : VyStmt)
    (h : findTerminatingStep node = .ok (some t)) : t.isTerminus = true := by
  cases node with
  | ifS test body orelse =>
    rw [findTerminatingStep] at h
    cases hb : findTerminatingNodeAux none body with
    | error e => rw [hb] at h; exact absurd h (by simp)
    | ok bodyT =>
      cases he : findTerminatingNodeAux none orelse with
      | error e => rw [hb, he] at h; exact absurd h (by simp)
      | ok elseT =>
        rw [hb, he] at h
        simp only [Except.ok.injEq] at h
        by_cases hc : bodyT.isSome && elseT.isSome
        · rw [if_pos hc] at h
          rcases findTerminatingNodeAux_terminus_flag orelse none t (by rw [he, h]) with h1 | h1
          · exact absurd h1 (by simp)
          · exact h1
        · rw [if_neg hc] at h
          simp [VyStmt.isTerminus] at h
  | forS tgt iter body =>
    rw [findTerminatingStep] at h
    cases hb : findTerminatingNodeAux none body with
    | error e => rw [hb] at h; exact absurd h (by simp)
    | ok x =>
      rw [hb] at h
      simp [VyStmt.isTerminus] at h
  | exprStmt e =>
    rw [show findTerminatingStep (VyStmt.exprStmt e) = Except.ok none from rfl] at h
    exact absurd h (by simp)
  | assign tg v =>
    rw [show findTerminatingStep (VyStmt.assign tg v) = Except.ok none from rfl] at h
    exact absurd h (by simp)
  | augAssign tg v =>
    rw [show findTerminatingStep (VyStmt.augAssign tg v) = Except.ok none from rfl] at h
    exact absurd h (by simp)
  | passS =>
    rw [show findTerminatingStep VyStmt.passS = Except.ok none from rfl] at h
    exact absurd h (by simp)
  | ret v =>
    rw [show findTerminatingStep (VyStmt.ret v) = Except.ok (some (VyStmt.ret v)) from rfl] at h
    simp only [Except.ok.injEq, Option.some.injEq] at h
    rw [← h]
    rfl
  | raiseS =>
    rw [show findTerminatingStep VyStmt.raiseS = Except.ok (some VyStmt.raiseS) from rfl] at h
    simp only [Except.ok.injEq, Option.some.injEq] at h
    rw [← h]
    rfl

/-- A terminus found by the scanning loop is the incoming accumulator
or carries the `is_terminus` flag. -/
theorem findTerminatingNodeAux_terminus_flag (l : List VyStmt) (r : Option VyStmt) (t : VyStmt)
    (h : findTerminatingNodeAux r l = .ok (some t)) : r = some t ∨ t.isTerminus = true := by
  cases l with
  | nil =>
    rw [findTerminatingNodeAux] at h
    simp only [Except.ok.injEq] at h
    exact Or.inl h
  | cons node rest =>
    rw [findTerminatingNodeAux] at h
    cases r with
    | some x => simp at h
    | none =>
      simp only [Option.isSome_none, Bool.false_eq_true, if_false] at h
      cases hs : findTerminatingStep node with
      | error e => rw [hs] at h; simp at h
      | ok r2 =>
        rw [hs] at h
        rcases findTerminatingNodeAux_terminus_flag rest r2 t h with h1 | h1
        · exact Or.inr (findTerminatingStep_terminus_flag node t (by rw [hs, h1]))
        · exact Or.inr h1

end

/-- C6: a `For` statement is never the terminus of a sequence — a for
node contributes nothing to the accumulator, its body being recursed
into only for unreachable-code detection — and any terminus returned
by `find_terminating_node` carries the `is_terminus` flag, which no
`For` node does. -/
theorem for_loop_never_terminus (tgt : String) (iter : VyExpr) (b l : List VyStmt)
    (t : VyStmt) :
    find_terminating_node [VyStmt.forS tgt iter b] =
      (find_terminating_node b).map (fun _ => (none : Option VyStmt)) ∧
    (find_terminating_node l = .ok (some t) → t.isForLoop = false) := by
  constructor
  · rw [find_terminating_node_singleton, findTerminatingStep]
    rw [show findTerminatingNodeAux none b = find_terminating_node b from rfl]
    cases hb : find_terminating_node b with
    | error e => simp [Except.map]
    | ok x => simp [Except.map, VyStmt.isTerminus]
  · intro h
    rcases findTerminatingNodeAux_terminus_flag l none t h with h1 | h1
    · exact absurd h1 (by simp)
    · cases t <;> simp_all [VyStmt.isTerminus, VyStmt.isForLoop]

/-- Witness for C6: a fixed-count loop whose body always returns is
still no terminus, and the terminus of a concrete sequence is the
return statement, not a loop. -/
theorem for_loop_never_terminus_witness :
    find_terminating_node
        [VyStmt.forS "i" (.call (.name "range") [.intLit 5]) [.ret none]] =
      (find_terminating_node [VyStmt.ret none]).map (fun _ => (none : Option VyStmt)) ∧
    (find_terminating_node
        [VyStmt.forS "i" (.call (.name "range") [.intLit 5]) [.ret none], VyStmt.ret none] =
        .ok (some (.ret none)) →
      VyStmt.isForLoop (.ret none) = false) :=
  for_loop_never_terminus "i" (.call (.name "range") [.intLit 5]) [.ret none]
    [VyStmt.forS "i" (.call (.name "range") [.intLit 5]) [.ret none], VyStmt.ret none]
    (.ret none)

/-- C4: without a `bound` keyword, `_validate_range_call` succeeds
exactly when start and end (start implicitly 0 for a single argument)
are literal integers with end strictly greater than start; with a
`bound` keyword it succeeds exactly when the bound is a literal of at
least 1 and start and end are not also both literal.  The concrete
conjuncts are the spec's four examples: `range(5)`, `range(3, 3)`,
`range(0, n, bound=10)` and `range(0, 10, bound=5)`. -/
theorem range_call_validation (a1 : RArg) (a2 : Option RArg) (b : RArg) :
    (_validate_range_call a1 a2 none = .ok () ↔
      ∃ sv ev, rangeStart a1 a2 = .num sv ∧ rangeEnd a1 a2 = .num ev ∧ sv < ev) ∧
    (_validate_range_call a1 a2 (some b) = .ok () ↔
      ((∃ bv, b.resolve = .num bv ∧ 1 ≤ bv) ∧
        ((rangeStart a1 a2).isNum = false ∨ (rangeEnd a1 a2).isNum = false))) ∧
    _validate_range_call ⟨.num 5, none⟩ none none = .ok () ∧
    _validate_range_call ⟨.num 3, none⟩ (some ⟨.num 3, none⟩) none =
      .error .endNotGreater ∧
    _validate_range_call ⟨.num 0, none⟩ (some ⟨.other, none⟩) (some ⟨.num 10, none⟩) =
      .ok () ∧
    _validate_range_call ⟨.num 0, none⟩ (some ⟨.num 10, none⟩) (some ⟨.num 5, none⟩) =
      .error .redundantBound := by
  refine ⟨?_, ?_, rfl, rfl, rfl, rfl⟩
  · simp only [_validate_range_call]
    cases hs : rangeStart a1 a2 with
    | num sv =>
      cases he : rangeEnd a1 a2 with
      | num ev =>
        by_cases hlt : ev ≤ sv
        · simp only [if_pos hlt]
          constructor
          · intro h
            exact absurd h (by simp)
          · rintro ⟨sv2, ev2, hsv, hev, hlt2⟩
            simp only [RNode.num.injEq] at hsv hev
            omega
        · simp only [if_neg hlt]
          constructor
          · intro _
            exact ⟨sv, ev, rfl, rfl, by omega⟩
          · intro _
            trivial
      | other =>
        simp only []
        constructor
        · intro h
          exact absurd h (by simp)
        · rintro ⟨sv2, ev2, hsv, hev, hlt2⟩
          exact absurd hev (by simp)
    | other =>
      simp only []
      constructor
      · intro h
        exact absurd h (by simp)
      · rintro ⟨sv2, ev2, hsv, hev, hlt2⟩
        exact absurd hsv (by simp)
  · simp only [_validate_range_call]
    cases hb : b.resolve with
    | num bv =>
      by_cases hpos : bv ≤ 0
      · simp only [if_pos hpos]
        constructor
        · intro h
          exact absurd h (by simp)
        · rintro ⟨⟨bv2, hbv, hge⟩, _⟩
          simp only [RNode.num.injEq] at hbv
          omega
      · simp only [if_neg hpos]
        cases hs : rangeStart a1 a2 with
        | num sv =>
          cases he : rangeEnd a1 a2 with
          | num ev =>
            constructor
            · intro h
              exact absurd h (by simp)
            · rintro ⟨_, h | h⟩ <;> simp [RNode.isNum] at h
          | other =>
            constructor
            · intro _
              exact ⟨⟨bv, rfl, by omega⟩, Or.inr (by simp [RNode.isNum])⟩
            · intro _
              trivial
        | other =>
          cases he : rangeEnd a1 a2 with
          | num ev =>
            constructor
            · intro _
              exact ⟨⟨bv, rfl, by omega⟩, Or.inl (by simp [RNode.isNum])⟩
            · intro _
              trivial
          | other =>
            constructor
            · intro _
              exact ⟨⟨bv, rfl, by omega⟩, Or.inl (by simp [RNode.isNum])⟩
            · intro _
              trivial
    | other =>
      constructor
      · intro h
        exact absurd h (by simp)
      · rintro ⟨⟨bv, hbv, _⟩, _⟩
        exact absurd hbv (by simp)

/-- Witness for C4 at a concrete non-literal end with a bound. -/
theorem range_call_validation_witness :
    (_validate_range_call ⟨.num 1, none⟩ (some ⟨.num 4, none⟩) none = .ok () ↔
      ∃ sv ev, rangeStart ⟨.num 1, none⟩ (some ⟨.num 4, none⟩) = .num sv ∧
        rangeEnd ⟨.num 1, none⟩ (some ⟨.num 4, none⟩) = .num ev ∧ sv < ev) ∧
    (_validate_range_call ⟨.num 1, none⟩ (some ⟨.num 4, none⟩) (some ⟨.num 7, none⟩) =
        .ok () ↔
      ((∃ bv, RArg.resolve ⟨.num 7, none⟩ = .num bv ∧ 1 ≤ bv) ∧
        ((rangeStart ⟨.num 1, none⟩ (some ⟨.num 4, none⟩)).isNum = false ∨
          (rangeEnd ⟨.num 1, none⟩ (some ⟨.num 4, none⟩)).isNum = false))) ∧
    _validate_range_call ⟨.num 5, none⟩ none none = .ok () ∧
    _validate_range_call ⟨.num 3, none⟩ (some ⟨.num 3, none⟩) none =
      .error .endNotGreater ∧
    _validate_range_call ⟨.num 0, none⟩ (some ⟨.other, none⟩) (some ⟨.num 10, none⟩) =
      .ok () ∧
    _validate_range_call ⟨.num 0, none⟩ (some ⟨.num 10, none⟩) (some ⟨.num 5, none⟩) =
      .error .redundantBound :=
  range_call_validation ⟨.num 1, none⟩ (some ⟨.num 4, none⟩) ⟨.num 7, none⟩

/-- C5: a callee above `VIEW` called from a function at `VIEW` or
below raises the mutating-call `StateAccessViolation`; a non-`PURE`
callee called from a `PURE` function raises a `StateAccessViolation`
(both error shapes model that exception class); a `NONPAYABLE` caller
may call a mutating callee. -/
theorem visit_Expr_mutability_rules (funcMut calleeMut : StateMutability) :
    ((StateMutability.view < calleeMut ∧ funcMut ≤ StateMutability.view) →
      visit_Expr_call_mutability funcMut calleeMut = .error .cannotCallMutating) ∧
    ((funcMut = StateMutability.pure ∧ calleeMut ≠ StateMutability.pure) →
      visit_Expr_call_mutability funcMut calleeMut ≠ .ok ()) ∧
    (StateMutability.view < calleeMut →
      visit_Expr_call_mutability StateMutability.nonpayable calleeMut = .ok ()) := by
  cases funcMut <;> cases calleeMut <;> refine ⟨?_, ?_, ?_⟩ <;> decide

/-- Witness for C5: a mutating call from a view function fails, a
non-pure view callee from a pure function fails, and the same
mutating call from a nonpayable function succeeds. -/
theorem visit_Expr_mutability_rules_witness :
    visit_Expr_call_mutability .view .nonpayable = .error .cannotCallMutating ∧
    visit_Expr_call_mutability .pure .view ≠ .ok () ∧
    visit_Expr_call_mutability .nonpayable .nonpayable = .ok () :=
  ⟨(visit_Expr_mutability_rules .view .nonpayable).1 ⟨by decide, by decide⟩,
   (visit_Expr_mutability_rules .pure .view).2.1 ⟨rfl, by decide⟩,
   (visit_Expr_mutability_rules .nonpayable .nonpayable).2.2 (by decide)⟩

/-- C8 counterexample: the claim "a string-literal reason is rejected
if and only if it is empty" fails at the whitespace-only literal,
which is non-empty yet rejected (the code tests
`not msg_node.value.strip()`). -/
theorem revert_reason_empty_iff_counterexample :
    _validate_revert_reason (.strLit " ") = .error .emptyReasonString ∧
    (" " : String) ≠ "" := by
  exact ⟨rfl, by decide⟩

/-- C8 (amended): a string-literal reason is rejected exactly when it
strips to the empty string (every character whitespace); a non-literal
reason other than the bare identifier `UNREACHABLE` is accepted
exactly when it validates against `String[1024]`, failing with the
invalid-type error otherwise; `UNREACHABLE` is always accepted. -/
theorem revert_reason_rules (value ident : String) (fits : Bool)
    (hid : ident ≠ "UNREACHABLE") :
    (_validate_revert_reason (.strLit value) = .ok () ↔
      value.data.all Char.isWhitespace = false) ∧
    _validate_revert_reason (.name "UNREACHABLE" fits) = .ok () ∧
    (_validate_revert_reason (.name ident fits) = .ok () ↔ fits = true) ∧
    (_validate_revert_reason (.expr fits) = .ok () ↔ fits = true) ∧
    (fits = false → _validate_revert_reason (.expr fits) = .error .reasonNotString1024) := by
  refine ⟨?_, ?_, ?_, ?_, ?_⟩
  · simp only [_validate_revert_reason]
    cases h : value.data.all Char.isWhitespace <;> simp
  · simp [_validate_revert_reason]
  · simp only [_validate_revert_reason, if_neg hid]
    cases fits <;> simp
  · simp only [_validate_revert_reason]
    cases fits <;> simp
  · intro h
    simp [_validate_revert_reason, h]

/-- Witness for C8 (amended) at concrete reasons. -/
theorem revert_reason_rules_witness :
    (_validate_revert_reason (.strLit "oops") = .ok () ↔
      ("oops" : String).data.all Char.isWhitespace = false) ∧
    _validate_revert_reason (.name "UNREACHABLE" false) = .ok () ∧
    (_validate_revert_reason (.name "reason" false) = .ok () ↔ false = true) ∧
    (_validate_revert_reason (.expr false) = .ok () ↔ false = true) ∧
    (false = false → _validate_revert_reason (.expr false) = .error .reasonNotString1024) :=
  revert_reason_rules "oops" "reason" false (by decide)

/-- C10: `visit_Assert` validates an optional message under exactly
the revert-reason rules (the same verdict, propagated), and the test
must validate against boolean: an `InvalidType` from the collaborator
becomes the "Assertion test value must be a boolean" error. -/
theorem visit_Assert_rules (m : RevertMsg) (tc : Except TcErr Unit) :
    (∀ e, _validate_revert_reason m = .error e →
      visit_Assert (some m) tc = .error (.reasonErr e)) ∧
    (_validate_revert_reason m = .ok () →
      visit_Assert (some m) tc = visit_Assert none tc) ∧
    (visit_Assert none tc = .ok () ↔ tc = .ok ()) ∧
    (tc = .error .invalidType →
      visit_Assert none tc = .error .assertionTestNotBoolean) := by
  refine ⟨?_, ?_, ?_, ?_⟩
  · intro e he
    simp [visit_Assert, he]
  · intro hok
    simp [visit_Assert, hok]
  · cases tc with
    | error e => cases e <;> simp [visit_Assert, assertTestCheck]
    | ok u => simp [visit_Assert, assertTestCheck]
  · intro h
    simp [visit_Assert, assertTestCheck, h]

/-- Witness for C10: a valid message with a non-boolean test yields
the assertion-boolean error; an invalid message is reported as the
revert-reason error. -/
theorem visit_Assert_rules_witness :
    visit_Assert (some (.expr true)) (.error .invalidType) =
      .error .assertionTestNotBoolean ∧
    visit_Assert (some (.expr false)) (.ok ()) = .error (.reasonErr .reasonNotString1024) := by
  constructor
  · rw [(visit_Assert_rules (.expr true) (.error .invalidType)).2.1 rfl]
    exact (visit_Assert_rules (.expr true) (.error .invalidType)).2.2.2 rfl
  · exact (visit_Assert_rules (.expr false) (.ok ())).1 .reasonNotString1024 rfl

/-- The error-collecting fold of `validate_functions` appends exactly
the errors of the analyzed functions, in order. -/
theorem validate_functions_foldl {α E : Type} (analyze : α → Except E Unit) :
    ∀ (fns : List α) (acc : List E),
      fns.foldl
        (fun acc fn =>
          match analyze fn with
          | .error e => acc ++ [e]
          | .ok _ => acc)
        acc = acc ++ fns.filterMap (fun fn => exceptErr (analyze fn)) := by
  intro fns
  induction fns with
  | nil => intro acc; simp
  | cons fn rest ih =>
    intro acc
    rw [List.foldl_cons, List.filterMap_cons]
    cases h : analyze fn with
    | error e => simp [h, ih, exceptErr]
    | ok u => simp [h, ih, exceptErr]

/-- The per-function outcome succeeds exactly when its error slot is
empty. -/
theorem exceptErr_eq_none {E : Type} (x : Except E Unit) :
    exceptErr x = none ↔ x = .ok () := by
  cases x with
  | error e => simp [exceptErr]
  | ok u => cases u; simp [exceptErr]

/-- C7: `validate_functions` attempts every function: it succeeds
exactly when every function's analysis succeeds, and otherwise raises
one aggregate error carrying the recorded failure of every failing
function, in order — a failure in one function never blocks the
analysis (and error recording) of the functions after it. -/
theorem validate_functions_aggregates {α E : Type} (analyze : α → Except E Unit)
    (fns : List α) :
    (validate_functions analyze fns = .ok () ↔ ∀ fn ∈ fns, analyze fn = .ok ()) ∧
    ((∃ fn ∈ fns, analyze fn ≠ .ok ()) →
      validate_functions analyze fns =
        .error (fns.filterMap (fun fn => exceptErr (analyze fn)))) := by
  have hfold := validate_functions_foldl analyze fns []
  constructor
  · rw [validate_functions]
    simp only [hfold, List.nil_append]
    cases hL : fns.filterMap (fun fn => exceptErr (analyze fn)) with
    | nil =>
      simp only []
      constructor
      · intro _ fn hfn
        have := List.filterMap_eq_nil_iff.mp hL fn hfn
        exact (exceptErr_eq_none (analyze fn)).mp this
      · intro _
        trivial
    | cons e es =>
      simp only []
      constructor
      · intro h
        exact absurd h (by simp)
      · intro hall
        have : fns.filterMap (fun fn => exceptErr (analyze fn)) = [] := by
          apply List.filterMap_eq_nil_iff.mpr
          intro fn hfn
          exact (exceptErr_eq_none (analyze fn)).mpr (hall fn hfn)
        rw [hL] at this
        exact absurd this (by simp)
  · rintro ⟨fn, hfn, hne⟩
    rw [validate_functions]
    simp only [hfold, List.nil_append]
    cases hL : fns.filterMap (fun fn => exceptErr (analyze fn)) with
    | nil =>
      have := List.filterMap_eq_nil_iff.mp hL fn hfn
      exact absurd ((exceptErr_eq_none (analyze fn)).mp this) hne
    | cons e es => simp only []

/-- A concrete per-function analysis outcome used by the driver
witness: the function numbered 0 succeeds, every other fails with its
own number. -/
def demoAnalyze (n : Nat) : Except Nat Unit :=
  if n = 0 then .ok () else .error n

/-- Witness for C7: the failing functions 1 and 2 are both analyzed
and the aggregate error lists each failure. -/
theorem validate_functions_aggregates_witness :
    (validate_functions demoAnalyze [0, 1, 2] = .ok () ↔
      ∀ fn ∈ [0, 1, 2], demoAnalyze fn = .ok ()) ∧
    ((∃ fn ∈ [0, 1, 2], demoAnalyze fn ≠ .ok ()) →
      validate_functions demoAnalyze [0, 1, 2] =
        .error ([0, 1, 2].filterMap (fun fn => exceptErr (demoAnalyze fn)))) :=
  validate_functions_aggregates demoAnalyze [0, 1, 2]

/-- The reachable-closure scan succeeds exactly when no reachable
function's body modifies the iterated expression. -/
theorem checkReachable_ok_iff (vyModule : List ModuleFn) (target : VyExpr)
    (fnName iterName : String) (gs : List String)
    (hlook : ∀ g ∈ gs, (lookupFn vyModule g).isSome) :
    (checkReachable vyModule target fnName iterName gs = .ok () ↔
      ∀ g ∈ gs, ∀ gf, lookupFn vyModule g = some gf → fnHasMod target gf = false) := by
  induction gs with
  | nil => simp [checkReachable]
  | cons g rest ih =>
    obtain ⟨gf, hgf⟩ := Option.isSome_iff_exists.mp (hlook g (by simp))
    rw [checkReachable, hgf, List.forall_mem_cons]
    cases hmod : fnHasMod target gf with
    | true =>
      simp only [hmod, if_true]
      constructor
      · intro h
        exact absurd h (by simp)
      · rintro ⟨hhead, _⟩
        have h2 := hhead gf hgf
        rw [h2] at hmod
        exact absurd hmod (by simp)
    | false =>
      simp only [hmod, Bool.false_eq_true, if_false]
      rw [ih (fun g2 hg2 => hlook g2 (List.mem_cons_of_mem g hg2))]
      constructor
      · intro hrest
        refine ⟨?_, hrest⟩
        intro gf2 hgf2
        rw [hgf] at hgf2
        cases hgf2
        exact hmod
      · rintro ⟨_, hrest⟩
        exact hrest

/-- Every error the reachable-closure scan raises (under resolvable
lookups) is an `ImmutableViolation`. -/
theorem checkReachable_error_imm (vyModule : List ModuleFn) (target : VyExpr)
    (fnName iterName : String) (gs : List String)
    (hlook : ∀ g ∈ gs, (lookupFn vyModule g).isSome) (e : ForErr)
    (h : checkReachable vyModule target fnName iterName gs = .error e) :
    e.isImmutableViolation = true := by
  induction gs with
  | nil => rw [checkReachable] at h; exact absurd h (by simp)
  | cons g rest ih =>
    obtain ⟨gf, hgf⟩ := Option.isSome_iff_exists.mp (hlook g (by simp))
    rw [checkReachable, hgf] at h
    cases hmod : fnHasMod target gf with
    | true =>
      simp only [hmod, if_true, Except.error.injEq] at h
      rw [← h]
      rfl
    | false =>
      simp only [hmod, Bool.false_eq_true, if_false] at h
      exact ih (fun g2 hg2 => hlook g2 (List.mem_cons_of_mem g hg2)) h

/-- The loop over `self.<fn>(...)` call sites succeeds exactly when no
callee body and no reachable function's body modifies the iterated
expression. -/
theorem checkLoopCalls_ok_iff (vyModule : List ModuleFn) (target : VyExpr)
    (iterName : String) (calls : List String)
    (hlook : ∀ fn ∈ calls, ∃ f, lookupFn vyModule fn = some f ∧
      ∀ g ∈ f.reachable, (lookupFn vyModule g).isSome) :
    (checkLoopCalls vyModule target iterName calls = .ok () ↔
      ∀ fn ∈ calls, ∀ f, lookupFn vyModule fn = some f →
        fnHasMod target f = false ∧
        ∀ g ∈ f.reachable, ∀ gf, lookupFn vyModule g = some gf →
          fnHasMod target gf = false) := by
  induction calls with
  | nil => simp [checkLoopCalls]
  | cons fn rest ih =>
    obtain ⟨f, hf, hreach⟩ := hlook fn (by simp)
    rw [checkLoopCalls, hf, List.forall_mem_cons]
    cases hmod : fnHasMod target f with
    | true =>
      simp only [hmod, if_true]
      constructor
      · intro h
        exact absurd h (by simp)
      · rintro ⟨hhead, _⟩
        have h2 := (hhead f hf).1
        rw [h2] at hmod
        exact absurd hmod (by simp)
    | false =>
      simp only [hmod, Bool.false_eq_true, if_false]
      cases hcr : checkReachable vyModule target fn iterName f.reachable with
      | error e =>
        constructor
        · intro h
          exact absurd h (by simp)
        · rintro ⟨hhead, _⟩
          have h2 := (checkReachable_ok_iff vyModule target fn iterName f.reachable
            hreach).mpr (hhead f hf).2
          rw [h2] at hcr
          exact absurd hcr (by simp)
      | ok u =>
        cases u
        rw [ih (fun fn2 hfn2 => hlook fn2 (List.mem_cons_of_mem fn hfn2))]
        constructor
        · intro hrest
          refine ⟨?_, hrest⟩
          intro f2 hf2
          rw [hf] at hf2
          cases hf2
          exact ⟨hmod,
            (checkReachable_ok_iff vyModule target fn iterName f.reachable hreach).mp hcr⟩
        · rintro ⟨_, hrest⟩
          exact hrest

/-- Every error the call-site loop raises (under resolvable lookups)
is an `ImmutableViolation`. -/
theorem checkLoopCalls_error_imm (vyModule : List ModuleFn) (target : VyExpr)
    (iterName : String) (calls : List String)
    (hlook : ∀ fn ∈ calls, ∃ f, lookupFn vyModule fn = some f ∧
      ∀ g ∈ f.reachable, (lookupFn vyModule g).isSome) (e : ForErr)
    (h : checkLoopCalls vyModule target iterName calls = .error e) :
    e.isImmutableViolation = true := by
  induction calls with
  | nil => rw [checkLoopCalls] at h; exact absurd h (by simp)
  | cons fn rest ih =>
    obtain ⟨f, hf, hreach⟩ := hlook fn (by simp)
    rw [checkLoopCalls, hf] at h
    cases hmod : fnHasMod target f with
    | true =>
      simp only [hmod, if_true, Except.error.injEq] at h
      rw [← h]
      rfl
    | false =>
      simp only [hmod, Bool.false_eq_true, if_false] at h
      cases hcr : checkReachable vyModule target fn iterName f.reachable with
      | error e2 =>
        rw [hcr] at h
        simp only [Except.error.injEq] at h
        rw [← h]
        exact checkReachable_error_imm vyModule target fn iterName f.reachable hreach e2 hcr
      | ok u =>
        cases u
        rw [hcr] at h
        exact ih (fun fn2 hfn2 => hlook fn2 (List.mem_cons_of_mem fn hfn2)) h

/-- A storage-rooted iterated expression is in particular a
`Name`/`Attribute`, so the direct modification scan applies to it. -/
theorem iterIsStorageVar_isNameOrAttribute (iter : VyExpr)
    (h : iterIsStorageVar iter = true) : iter.isNameOrAttribute = true := by
  cases iter <;> simp_all [iterIsStorageVar, VyExpr.isNameOrAttribute]

/-- The storage array `self.arr`. -/
def cSelfArr : VyExpr := .attribute (.name "self") "arr"

/-- A loop body that only reads `self.arr[i]`. -/
def cReadsBody : List VyStmt := [.exprStmt (.subscript cSelfArr (.name "i"))]

/-- A loop body that calls `self.arr.pop()`. -/
def cPopBody : List VyStmt := [.exprStmt (.call (.attribute cSelfArr "pop") [])]

/-- A module function `helper` whose body pops `self.arr`. -/
def cHelperFn : ModuleFn := ⟨"helper", [.exprStmt (.call (.attribute cSelfArr "pop") [])], []⟩

/-- A module function `outer` with a harmless body that reaches
`helper` through its call-graph closure. -/
def cOuterFn : ModuleFn := ⟨"outer", [.passS], ["helper"]⟩

/-- The two-function demo module. -/
def cModule : List ModuleFn := [cHelperFn, cOuterFn]

/-- A loop body that calls `self.helper()`. -/
def cCallsHelperBody : List VyStmt := [.exprStmt (.call (.attribute (.name "self") "helper") [])]

/-- A loop body that calls `self.outer()`. -/
def cCallsOuterBody : List VyStmt := [.exprStmt (.call (.attribute (.name "self") "outer") [])]

/-- C3: for a loop over a storage-rooted expression, the iterator
safety check succeeds exactly when no structurally equal copy of the
iterated expression is modified directly in the loop, in the body of
any `self.<fn>(...)` callee, or in the body of any function in the
callee's reachable closure; every failure is an `ImmutableViolation`.
The concrete conjuncts: a body reading `self.arr[i]` passes, a body
popping `self.arr` fails naming the iterated variable, a body calling
a popping `self.helper()` fails naming the callee, and a body calling
`self.outer()` (which reaches `helper`) fails naming both. -/
theorem storage_iterator_mutation_rejected (vyModule : List ModuleFn) (tgt : String)
    (iter : VyExpr) (body : List VyStmt)
    (hstorage : iterIsStorageVar iter = true)
    (hlook : ∀ fn ∈ stmtSelfCalls (VyStmt.forS tgt iter body),
      ∃ f, lookupFn vyModule fn = some f ∧
        ∀ g ∈ f.reachable, (lookupFn vyModule g).isSome) :
    (visit_For_iterator_safety vyModule tgt iter body = .ok () ↔
      (_check_iterator_modification iter (VyStmt.forS tgt iter body) = false ∧
        ∀ fn ∈ stmtSelfCalls (VyStmt.forS tgt iter body),
          ∀ f, lookupFn vyModule fn = some f →
            fnHasMod iter f = false ∧
            ∀ g ∈ f.reachable, ∀ gf, lookupFn vyModule g = some gf →
              fnHasMod iter gf = false)) ∧
    (∀ e, visit_For_iterator_safety vyModule tgt iter body = .error e →
      e.isImmutableViolation = true) ∧
    visit_For_iterator_safety [] "i" cSelfArr cReadsBody = .ok () ∧
    visit_For_iterator_safety [] "i" cSelfArr cPopBody =
      .error (.modifiedDuringIteration "arr") ∧
    visit_For_iterator_safety cModule "i" cSelfArr cCallsHelperBody =
      .error (.callModifies "helper" "arr") ∧
    visit_For_iterator_safety cModule "i" cSelfArr cCallsOuterBody =
      .error (.callIndirectlyModifies "outer" "helper" "arr") := by
  have hattr := iterIsStorageVar_isNameOrAttribute iter hstorage
  refine ⟨?_, ?_, rfl, rfl, rfl, rfl⟩
  · rw [visit_For_iterator_safety]
    cases hdirect : _check_iterator_modification iter (VyStmt.forS tgt iter body) with
    | true =>
      simp only [hattr, hdirect, Bool.and_self, if_true]
      constructor
      · intro h
        exact absurd h (by simp)
      · rintro ⟨hfalse, _⟩
        exact absurd hfalse (by simp)
    | false =>
      simp only [hattr, hdirect, Bool.and_false, Bool.false_eq_true, if_false, hstorage,
        if_true]
      rw [checkLoopCalls_ok_iff vyModule iter iter.attrName
        (stmtSelfCalls (VyStmt.forS tgt iter body)) hlook]
      simp
  · intro e he
    rw [visit_For_iterator_safety] at he
    cases hdirect : _check_iterator_modification iter (VyStmt.forS tgt iter body) with
    | true =>
      simp only [hattr, hdirect, Bool.and_self, if_true, Except.error.injEq] at he
      rw [← he]
      rfl
    | false =>
      simp only [hattr, hdirect, Bool.and_false, Bool.false_eq_true, if_false, hstorage,
        if_true] at he
      exact checkLoopCalls_error_imm vyModule iter iter.attrName
        (stmtSelfCalls (VyStmt.forS tgt iter body)) hlook e he

/-- Witness for C3 at the reads-only loop over `self.arr`. -/
theorem storage_iterator_mutation_rejected_witness :
    (visit_For_iterator_safety [] "i" cSelfArr cReadsBody = .ok () ↔
      (_check_iterator_modification cSelfArr (VyStmt.forS "i" cSelfArr cReadsBody) = false ∧
        ∀ fn ∈ stmtSelfCalls (VyStmt.forS "i" cSelfArr cReadsBody),
          ∀ f, lookupFn [] fn = some f →
            fnHasMod cSelfArr f = false ∧
            ∀ g ∈ f.reachable, ∀ gf, lookupFn [] g = some gf →
              fnHasMod cSelfArr gf = false)) ∧
    (∀ e, visit_For_iterator_safety [] "i" cSelfArr cReadsBody = .error e →
      e.isImmutableViolation = true) ∧
    visit_For_iterator_safety [] "i" cSelfArr cReadsBody = .ok () ∧
    visit_For_iterator_safety [] "i" cSelfArr cPopBody =
      .error (.modifiedDuringIteration "arr") ∧
    visit_For_iterator_safety cModule "i" cSelfArr cCallsHelperBody =
      .error (.callModifies "helper" "arr") ∧
    visit_For_iterator_safety cModule "i" cSelfArr cCallsOuterBody =
      .error (.callIndirectlyModifies "outer" "helper" "arr") :=
  storage_iterator_mutation_rejected [] "i" cSelfArr cReadsBody rfl
    (by
      intro fn hfn
      rw [show stmtSelfCalls (VyStmt.forS "i" cSelfArr cReadsBody) = [] from rfl] at hfn
      exact absurd hfn (by simp))

/-- Stamp application splits over concatenation. -/
theorem applyStamps_append (l1 l2 : List (List Nat × Ty)) :
    ∀ m, applyStamps (l1 ++ l2) m = applyStamps l2 (applyStamps l1 m) := by
  induction l1 with
  | nil => intro m; rfl
  | cons st rest ih =>
    intro m
    cases st with
    | mk p t => rw [List.cons_append, applyStamps, applyStamps, ih]

/-- The value at a path after a stamp sequence is the last stamp the
sequence writes there, the base map's value otherwise. -/
theorem applyStamps_lookup (l : List (List Nat × Ty)) :
    ∀ (m : List Nat → Option Ty) (q : List Nat),
      applyStamps l m q =
        match lastStampAt l q with
        | some u => some u
        | none => m q := by
  induction l with
  | nil => intro m q; rfl
  | cons st rest ih =>
    intro m q
    cases st with
    | mk p t =>
      rw [applyStamps, ih, lastStampAt]
      cases hl : lastStampAt rest q with
      | some u => simp
      | none =>
        simp only []
        by_cases hq : q = p
        · simp [hq]
        · simp [hq]

/-- Stamp application only reads the base map at unstamped paths, so
pointwise equal bases give pointwise equal results. -/
theorem applyStamps_congr (l : List (List Nat × Ty)) (m1 m2 : List Nat → Option Ty)
    (h : ∀ q, m1 q = m2 q) : ∀ q, applyStamps l m1 q = applyStamps l m2 q := by
  intro q
  rw [applyStamps_lookup, applyStamps_lookup]
  cases lastStampAt l q with
  | some u => rfl
  | none => exact h q

/-- Re-applying the same stamp sequence changes nothing. -/
theorem applyStamps_idem (l : List (List Nat × Ty)) (m : List Nat → Option Ty) :
    ∀ q, applyStamps l (applyStamps l m) q = applyStamps l m q := by
  intro q
  rw [applyStamps_lookup, applyStamps_lookup]
  cases hl : lastStampAt l q with
  | some u => rfl
  | none => rfl

/-- Composition helper: applying `l2` to a map pointwise equal to
`applyStamps l1 m` equals applying `l1 ++ l2` to `m`. -/
theorem applyStamps_chain (l1 l2 : List (List Nat × Ty)) (m base : List Nat → Option Ty)
    (h : ∀ q, m q = applyStamps l1 base q) :
    ∀ q, applyStamps l2 m q = applyStamps (l1 ++ l2) base q := by
  intro q
  rw [applyStamps_append]
  exact applyStamps_congr l2 m (applyStamps l1 base) h q

/-- Set-like insertion keeps existing members. -/
theorem mem_insertAll_left (xs : List String) :
    ∀ (l : List String) (a : String), a ∈ l → a ∈ insertAll l xs := by
  induction xs with
  | nil => intro l a h; exact h
  | cons x rest ih =>
    intro l a h
    exact ih (l.insert x) a (List.mem_insert_of_mem h)

/-- Set-like insertion adds every inserted element. -/
theorem mem_insertAll_self (xs : List String) :
    ∀ (l : List String) (a : String), a ∈ xs → a ∈ insertAll l xs := by
  induction xs with
  | nil => intro l a h; exact absurd h (by simp)
  | cons x rest ih =>
    intro l a h
    rcases List.mem_cons.mp h with h1 | h1
    · rw [h1]
      exact mem_insertAll_left rest (l.insert x) x (List.mem_insert_self x l)
    · exact ih (l.insert x) a h1

/-- Inserting only elements already present changes nothing. -/
theorem insertAll_eq_of_subset (xs : List String) :
    ∀ (l : List String), (∀ a ∈ xs, a ∈ l) → insertAll l xs = l := by
  induction xs with
  | nil => intro l _; rfl
  | cons x rest ih =>
    intro l h
    have hx : l.insert x = l := List.insert_of_mem (h x (by simp))
    show insertAll (l.insert x) rest = l
    rw [hx]
    exact ih l (fun a ha => h a (List.mem_cons_of_mem x ha))

/-- Re-inserting the same elements changes nothing. -/
theorem insertAll_idem (l xs : List String) :
    insertAll (insertAll l xs) xs = insertAll l xs :=
  insertAll_eq_of_subset xs (insertAll l xs) (fun a ha => mem_insertAll_self xs l a ha)

/-- Insertion splits over concatenation. -/
theorem insertAll_append (l xs ys : List String) :
    insertAll l (xs ++ ys) = insertAll (insertAll l xs) ys := by
  rw [insertAll, insertAll, insertAll, List.foldl_append]

/-- A successful `ExprVisitor.visit` rewrites the annotation map by
its pure stamp sequence and extends `called_functions` by its pure
callee sequence: the mutation performed is a function of the tree,
the expected type and the oracles alone, never of the incoming
state. -/
theorem visit_ok_state (o : TypeOracle) (e : AExpr) :
    ∀ (t : Ty) (p : List Nat) (s sFin : AnnState),
      ExprVisitor_visit o e t p s = .ok sFin →
      (∀ q, sFin.ann q = applyStamps (visitStamps o e t p) s.ann q) ∧
      sFin.called = insertAll s.called (visitCalls o e) := by
  cases e with
  | constant v =>
    intro t p s sFin h
    simp only [ExprVisitor_visit] at h
    by_cases hv : o.valid (.constant v) t = true
    · rw [if_pos hv] at h
      simp only [Except.ok.injEq] at h
      rw [← h]
      exact ⟨fun q => rfl, rfl⟩
    · rw [if_neg hv] at h
      exact absurd h (by simp)
  | nameE id =>
    intro t p s sFin h
    simp only [ExprVisitor_visit] at h
    by_cases hv : o.valid (.nameE id) t = true
    · rw [if_pos hv] at h
      simp only [Except.ok.injEq] at h
      rw [← h]
      exact ⟨fun q => rfl, rfl⟩
    · rw [if_neg hv] at h
      exact absurd h (by simp)
  | binop isShift l r folded =>
    intro t p s sFin h
    simp only [ExprVisitor_visit] at h
    by_cases hvl : o.valid l t = true
    · rw [if_pos hvl] at h
      cases h1 : ExprVisitor_visit o l t (p ++ [0]) s with
      | error e1 =>
        simp only [h1] at h
        exact absurd h (by simp)
      | ok s1 =>
        simp only [h1] at h
        by_cases hvr : o.valid r (if isShift = true then o.possibleT r else t) = true
        · rw [if_pos hvr] at h
          cases h2 : ExprVisitor_visit o r (if isShift = true then o.possibleT r else t)
              (p ++ [1]) s1 with
          | error e2 =>
            simp only [h2] at h
            exact absurd h (by simp)
          | ok s2 =>
            simp only [h2] at h
            have hl := visit_ok_state o l t (p ++ [0]) s s1 h1
            have hr := visit_ok_state o r (if isShift = true then o.possibleT r else t)
              (p ++ [1]) s1 s2 h2
            have e2ann : ∀ q, s2.ann q =
                applyStamps (visitStamps o l t (p ++ [0]) ++
                  visitStamps o r (if isShift = true then o.possibleT r else t) (p ++ [1]))
                  s.ann q :=
              fun q => (hr.1 q).trans (applyStamps_chain _ _ s1.ann s.ann hl.1 q)
            have e3ann : ∀ q, (stampAnn s2 p t).ann q =
                applyStamps ((visitStamps o l t (p ++ [0]) ++
                  visitStamps o r (if isShift = true then o.possibleT r else t) (p ++ [1])) ++
                  [(p, t)]) s.ann q :=
              fun q => applyStamps_chain _ [(p, t)] s2.ann s.ann e2ann q
            have e3call : (stampAnn s2 p t).called =
                insertAll s.called (visitCalls o l ++ visitCalls o r) := by
              show s2.called = _
              rw [hr.2, hl.2, ← insertAll_append]
            cases folded with
            | none =>
              simp only [visitFoldedOpt, Except.ok.injEq] at h
              rw [← h]
              constructor
              · intro q
                have := e3ann q
                simp only [visitStamps, stampsFoldedOpt, List.append_assoc, List.append_nil]
                simp only [List.append_assoc] at this
                exact this
              · rw [e3call]
                simp only [visitCalls, callsFoldedOpt, List.append_nil]
            | some f =>
              simp only [visitFoldedOpt] at h
              have hf := visit_ok_state o f t (p ++ [2]) (stampAnn s2 p t) sFin h
              constructor
              · intro q
                have hchain := applyStamps_chain
                  ((visitStamps o l t (p ++ [0]) ++
                    visitStamps o r (if isShift = true then o.possibleT r else t)
                      (p ++ [1])) ++ [(p, t)])
                  (visitStamps o f t (p ++ [2]))
                  (stampAnn s2 p t).ann s.ann e3ann q
                have := (hf.1 q).trans hchain
                simp only [visitStamps, stampsFoldedOpt, List.append_assoc]
                simp only [List.append_assoc] at this
                exact this
              · rw [hf.2, e3call, ← insertAll_append]
                simp only [visitCalls, callsFoldedOpt, List.append_assoc]
        · rw [if_neg hvr] at h
          exact absurd h (by simp)
    · rw [if_neg hvl] at h
      exact absurd h (by simp)
  | callFn fn arg =>
    intro t p s sFin h
    simp only [ExprVisitor_visit] at h
    by_cases hv : o.valid (.nameE fn) (o.fnTy fn) = true
    · rw [if_pos hv] at h
      cases hint : o.isInternal fn with
      | true =>
        simp only [hint, if_true] at h
        cases h2 : ExprVisitor_visit o arg (o.argTy fn) (p ++ [1])
            (addCalled (stampAnn s (p ++ [0]) (o.fnTy fn)) fn) with
        | error e2 =>
          simp only [h2] at h
          exact absurd h (by simp)
        | ok s3 =>
          simp only [h2] at h
          simp only [Except.ok.injEq] at h
          have ha := visit_ok_state o arg (o.argTy fn) (p ++ [1])
            (addCalled (stampAnn s (p ++ [0]) (o.fnTy fn)) fn) s3 h2
          rw [← h]
          constructor
          · intro q
            have e1ann : ∀ q2, (addCalled (stampAnn s (p ++ [0]) (o.fnTy fn)) fn).ann q2 =
                applyStamps [(p ++ [0], o.fnTy fn)] s.ann q2 := fun q2 => rfl
            have e2ann : ∀ q2, s3.ann q2 =
                applyStamps ([(p ++ [0], o.fnTy fn)] ++
                  visitStamps o arg (o.argTy fn) (p ++ [1])) s.ann q2 :=
              fun q2 => (ha.1 q2).trans (applyStamps_chain _ _ _ s.ann e1ann q2)
            have e3ann : ∀ q2, (stampAnn s3 p t).ann q2 =
                applyStamps (([(p ++ [0], o.fnTy fn)] ++
                  visitStamps o arg (o.argTy fn) (p ++ [1])) ++ [(p, t)]) s.ann q2 :=
              fun q2 => applyStamps_chain _ [(p, t)] s3.ann s.ann e2ann q2
            have := e3ann q
            simp only [visitStamps, hint, List.append_assoc, List.cons_append,
              List.nil_append]
            simp only [List.append_assoc, List.cons_append, List.nil_append] at this
            exact this
          · show s3.called = _
            rw [ha.2]
            simp only [visitCalls, hint, if_true]
            rw [show (addCalled (stampAnn s (p ++ [0]) (o.fnTy fn)) fn).called =
              insertAll s.called [fn] from rfl]
            rw [← insertAll_append]
      | false =>
        simp only [hint, Bool.false_eq_true, if_false] at h
        cases h2 : ExprVisitor_visit o arg (o.argTy fn) (p ++ [1])
            (stampAnn s (p ++ [0]) (o.fnTy fn)) with
        | error e2 =>
          simp only [h2] at h
          exact absurd h (by simp)
        | ok s3 =>
          simp only [h2] at h
          simp only [Except.ok.injEq] at h
          have ha := visit_ok_state o arg (o.argTy fn) (p ++ [1])
            (stampAnn s (p ++ [0]) (o.fnTy fn)) s3 h2
          rw [← h]
          constructor
          · intro q
            have e1ann : ∀ q2, (stampAnn s (p ++ [0]) (o.fnTy fn)).ann q2 =
                applyStamps [(p ++ [0], o.fnTy fn)] s.ann q2 := fun q2 => rfl
            have e2ann : ∀ q2, s3.ann q2 =
                applyStamps ([(p ++ [0], o.fnTy fn)] ++
                  visitStamps o arg (o.argTy fn) (p ++ [1])) s.ann q2 :=
              fun q2 => (ha.1 q2).trans (applyStamps_chain _ _ _ s.ann e1ann q2)
            have e3ann : ∀ q2, (stampAnn s3 p t).ann q2 =
                applyStamps (([(p ++ [0], o.fnTy fn)] ++
                  visitStamps o arg (o.argTy fn) (p ++ [1])) ++ [(p, t)]) s.ann q2 :=
              fun q2 => applyStamps_chain _ [(p, t)] s3.ann s.ann e2ann q2
            have := e3ann q
            simp only [visitStamps, hint, List.append_assoc, List.cons_append,
              List.nil_append]
            simp only [List.append_assoc, List.cons_append, List.nil_append] at this
            exact this
          · show s3.called = _
            rw [ha.2]
            simp only [visitCalls, hint, Bool.false_eq_true, if_false]
            rw [show (stampAnn s (p ++ [0]) (o.fnTy fn)).called = s.called from rfl]
            simp
    · rw [if_neg hv] at h
      exact absurd h (by simp)

/-- Whether `ExprVisitor.visit` succeeds depends only on the tree, the
expected type and the oracles — never on the incoming annotation
state. -/
theorem visit_ok_any_state (o : TypeOracle) (e : AExpr) :
    ∀ (t : Ty) (p : List Nat) (s sFin s2 : AnnState),
      ExprVisitor_visit o e t p s = .ok sFin →
      ∃ s3, ExprVisitor_visit o e t p s2 = .ok s3 := by
  cases e with
  | constant v =>
    intro t p s sFin s2 h
    simp only [ExprVisitor_visit] at h ⊢
    by_cases hv : o.valid (.constant v) t = true
    · rw [if_pos hv]
      exact ⟨_, rfl⟩
    · rw [if_neg hv] at h
      exact absurd h (by simp)
  | nameE id =>
    intro t p s sFin s2 h
    simp only [ExprVisitor_visit] at h ⊢
    by_cases hv : o.valid (.nameE id) t = true
    · rw [if_pos hv]
      exact ⟨_, rfl⟩
    · rw [if_neg hv] at h
      exact absurd h (by simp)
  | binop isShift l r folded =>
    intro t p s sFin s2 h
    simp only [ExprVisitor_visit] at h ⊢
    by_cases hvl : o.valid l t = true
    · rw [if_pos hvl] at h ⊢
      cases h1 : ExprVisitor_visit o l t (p ++ [0]) s with
      | error e1 =>
        simp only [h1] at h
        exact absurd h (by simp)
      | ok s1 =>
        simp only [h1] at h
        obtain ⟨s1b, h1b⟩ := visit_ok_any_state o l t (p ++ [0]) s s1 s2 h1
        simp only [h1b]
        by_cases hvr : o.valid r (if isShift = true then o.possibleT r else t) = true
        · rw [if_pos hvr] at h ⊢
          cases h2 : ExprVisitor_visit o r (if isShift = true then o.possibleT r else t)
              (p ++ [1]) s1 with
          | error e2 =>
            simp only [h2] at h
            exact absurd h (by simp)
          | ok s2r =>
            simp only [h2] at h
            obtain ⟨s2b, h2b⟩ := visit_ok_any_state o r
              (if isShift = true then o.possibleT r else t) (p ++ [1]) s1 s2r s1b h2
            simp only [h2b]
            cases folded with
            | none => exact ⟨_, rfl⟩
            | some f =>
              simp only [visitFoldedOpt] at h ⊢
              exact visit_ok_any_state o f t (p ++ [2]) (stampAnn s2r p t) sFin
                (stampAnn s2b p t) h
        · rw [if_neg hvr] at h
          exact absurd h (by simp)
    · rw [if_neg hvl] at h
      exact absurd h (by simp)
  | callFn fn arg =>
    intro t p s sFin s2 h
    simp only [ExprVisitor_visit] at h ⊢
    by_cases hv : o.valid (.nameE fn) (o.fnTy fn) = true
    · rw [if_pos hv] at h ⊢
      cases hint : o.isInternal fn with
      | true =>
        simp only [hint, if_true] at h ⊢
        cases h2 : ExprVisitor_visit o arg (o.argTy fn) (p ++ [1])
            (addCalled (stampAnn s (p ++ [0]) (o.fnTy fn)) fn) with
        | error e2 =>
          simp only [h2] at h
          exact absurd h (by simp)
        | ok s3 =>
          obtain ⟨s3b, h3b⟩ := visit_ok_any_state o arg (o.argTy fn) (p ++ [1])
            (addCalled (stampAnn s (p ++ [0]) (o.fnTy fn)) fn) s3
            (addCalled (stampAnn s2 (p ++ [0]) (o.fnTy fn)) fn) h2
          simp only [h3b]
          exact ⟨_, rfl⟩
      | false =>
        simp only [hint, Bool.false_eq_true, if_false] at h ⊢
        cases h2 : ExprVisitor_visit o arg (o.argTy fn) (p ++ [1])
            (stampAnn s (p ++ [0]) (o.fnTy fn)) with
        | error e2 =>
          simp only [h2] at h
          exact absurd h (by simp)
        | ok s3 =>
          obtain ⟨s3b, h3b⟩ := visit_ok_any_state o arg (o.argTy fn) (p ++ [1])
            (stampAnn s (p ++ [0]) (o.fnTy fn)) s3
            (stampAnn s2 (p ++ [0]) (o.fnTy fn)) h2
          simp only [h3b]
          exact ⟨_, rfl⟩
    · rw [if_neg hv] at h
      exact absurd h (by simp)

/-- C9: re-running `ExprVisitor.visit` on the state produced by a
successful first pass succeeds and changes nothing: every annotation
slot is re-stamped with the same resolved type and the append-only
`called_functions` set is unchanged. -/
theorem annotation_second_pass_idempotent (o : TypeOracle) (e : AExpr) (t : Ty)
    (p : List Nat) (s s1 : AnnState)
    (h : ExprVisitor_visit o e t p s = .ok s1) :
    ∃ s2, ExprVisitor_visit o e t p s1 = .ok s2 ∧
      (∀ q, s2.ann q = s1.ann q) ∧ s2.called = s1.called := by
  obtain ⟨s2, h2⟩ := visit_ok_any_state o e t p s s1 s1 h
  have c1 := visit_ok_state o e t p s s1 h
  have c2 := visit_ok_state o e t p s1 s2 h2
  refine ⟨s2, h2, ?_, ?_⟩
  · intro q
    rw [c2.1 q]
    rw [applyStamps_congr (visitStamps o e t p) s1.ann
      (applyStamps (visitStamps o e t p) s.ann) c1.1 q]
    rw [applyStamps_idem]
    exact (c1.1 q).symm
  · rw [c2.2, c1.2, insertAll_idem]

/-- A concrete oracle for the idempotence witness: every validation
passes, every type resolves to the integer type, every callee is
internal. -/
def cOracle : TypeOracle :=
  ⟨fun _ => Ty.intT, fun _ _ => true, fun _ => Ty.intT, fun _ => Ty.intT, fun _ => true⟩

/-- A concrete annotated expression: an internal call whose argument
is a binary operation carrying a folded constant. -/
def cAnnExpr : AExpr :=
  .callFn "f" (.binop false (.nameE "x") (.constant 1) (some (.constant 1)))

/-- The empty analysis state. -/
def cS0 : AnnState := ⟨fun _ => none, []⟩

/-- The analysis state after the first annotation pass over
`cAnnExpr`. -/
def cS1 : AnnState :=
  match ExprVisitor_visit cOracle cAnnExpr Ty.intT [] cS0 with
  | .ok s => s
  | .error _ => cS0

/-- Witness for C9 at the concrete expression. -/
theorem annotation_second_pass_idempotent_witness :
    ∃ s2, ExprVisitor_visit cOracle cAnnExpr Ty.intT [] cS1 = .ok s2 ∧
      (∀ q, s2.ann q = cS1.ann q) ∧ s2.called = cS1.called :=
  annotation_second_pass_idempotent cOracle cAnnExpr Ty.intT [] cS0 cS1 rfl
